import Mathlib

/-!
Shallow embedding of the Risk-AI game engine (`src/enviornment.py`,
`src/risk_game.py`, `src/risk_server.py`, `src/Enviornment.py`) together with
proofs settling the specification claims.  Python dictionaries of territories
are modelled as total functions from names guarded by membership in the fixed
key list; Python `None`-able integers are `Option ℤ`; functions that can raise
are modelled in `Except`.
-/

/-- `config.py` / `Enviornment.py`: `territories_with_adjacency`, the fixed
map of the 42 regions with their adjacency lists, in source order. -/
def territories_with_adjacency : List (String × List String) := [
  ("Alaska", ["Northwest_Territory", "Alberta", "Kamchatka"]),
  ("Northwest_Territory", ["Alaska", "Greenland", "Alberta", "Ontario"]),
  ("Alberta", ["Alaska", "Northwest_Territory", "Ontario", "Western_US"]),
  ("Ontario", ["Northwest_Territory", "Alberta", "Quebec", "Greenland", "Western_US", "Eastern_US"]),
  ("Greenland", ["Northwest_Territory", "Ontario", "Quebec", "Iceland"]),
  ("Quebec", ["Greenland", "Ontario", "Eastern_US"]),
  ("Eastern_US", ["Quebec", "Ontario", "Western_US", "Central_America"]),
  ("Western_US", ["Alberta", "Ontario", "Eastern_US", "Central_America"]),
  ("Central_America", ["Western_US", "Eastern_US", "Venezuela"]),
  ("Venezuela", ["Central_America", "Brazil", "Peru"]),
  ("Peru", ["Venezuela", "Brazil", "Argentina"]),
  ("Argentina", ["Peru", "Brazil"]),
  ("Brazil", ["Venezuela", "Peru", "Argentina", "North_Africa"]),
  ("North_Africa", ["Brazil", "Western_Europe", "Southern_Europe", "Egypt", "East_Africa", "Congo"]),
  ("Egypt", ["North_Africa", "Southern_Europe", "Middle_East", "East_Africa"]),
  ("East_Africa", ["Egypt", "Middle_East", "Congo", "Madagascar", "South_Africa"]),
  ("Congo", ["North_Africa", "East_Africa", "South_Africa"]),
  ("South_Africa", ["Congo", "East_Africa", "Madagascar"]),
  ("Madagascar", ["East_Africa", "South_Africa"]),
  ("Western_Europe", ["North_Africa", "Southern_Europe", "Northern_Europe", "Great_Britain"]),
  ("Great_Britain", ["Iceland", "Scandinavia", "Northern_Europe", "Western_Europe"]),
  ("Iceland", ["Greenland", "Scandinavia", "Great_Britain"]),
  ("Scandinavia", ["Iceland", "Great_Britain", "Northern_Europe", "Ukraine"]),
  ("Northern_Europe", ["Western_Europe", "Great_Britain", "Scandinavia", "Ukraine", "Southern_Europe"]),
  ("Southern_Europe", ["Western_Europe", "Northern_Europe", "Ukraine", "North_Africa", "Egypt", "Middle_East"]),
  ("Ukraine", ["Scandinavia", "Northern_Europe", "Southern_Europe", "Middle_East", "Afghanistan", "Ural"]),
  ("Middle_East", ["Southern_Europe", "Egypt", "East_Africa", "Ukraine", "Afghanistan", "India"]),
  ("India", ["Middle_East", "Afghanistan", "China", "Siam"]),
  ("Siam", ["India", "China", "Indonesia"]),
  ("Indonesia", ["Siam", "New_Guinea", "Western_Australia"]),
  ("New_Guinea", ["Indonesia", "Western_Australia", "Eastern_Australia"]),
  ("Western_Australia", ["Indonesia", "New_Guinea", "Eastern_Australia"]),
  ("Eastern_Australia", ["Western_Australia", "New_Guinea"]),
  ("China", ["Siam", "India", "Afghanistan", "Ural", "Siberia", "Mongolia"]),
  ("Afghanistan", ["Ukraine", "Middle_East", "India", "Ural", "China"]),
  ("Ural", ["Ukraine", "Afghanistan", "China", "Siberia"]),
  ("Siberia", ["Ural", "China", "Mongolia", "Irkutsk", "Yakutsk"]),
  ("Mongolia", ["China", "Japan", "Kamchatka", "Irkutsk", "Siberia"]),
  ("Japan", ["Mongolia", "Kamchatka"]),
  ("Irkutsk", ["Siberia", "Yakutsk", "Kamchatka", "Mongolia"]),
  ("Yakutsk", ["Siberia", "Irkutsk", "Kamchatka"]),
  ("Kamchatka", ["Japan", "Irkutsk", "Yakutsk", "Mongolia", "Alaska"])]

/-- The key set of the territory dictionary, in source order. -/
def territoryNames : List String := territories_with_adjacency.map Prod.fst

/-- Adjacency lookup, `territories_with_adjacency[name]`; an absent key gives
`[]` here (the Python dict raises `KeyError`, which callers model in `Except`
before using the result). -/
def adjacent (name : String) : List String :=
  (territories_with_adjacency.lookup name).getD []

/-- `config.py`: `continents`, each continent with its member regions. -/
def continents : List (String × List String) := [
  ("North America", ["Alaska", "Northwest_Territory", "Alberta", "Ontario", "Quebec", "Western_US", "Eastern_US", "Central_America", "Greenland"]),
  ("South America", ["Venezuela", "Brazil", "Peru", "Argentina"]),
  ("Europe", ["Iceland", "Great_Britain", "Western_Europe", "Northern_Europe", "Southern_Europe", "Ukraine", "Scandinavia"]),
  ("Africa", ["North_Africa", "Egypt", "East_Africa", "Congo", "South_Africa", "Madagascar"]),
  ("Asia", ["Middle_East", "Afghanistan", "India", "China", "Siberia", "Yakutsk", "Irkutsk", "Mongolia", "Kamchatka", "Japan", "Ural", "Siam"]),
  ("Australia", ["Indonesia", "New_Guinea", "Western_Australia", "Eastern_Australia"])]

/-- `config.py`: `continent_bonuses`. -/
def continent_bonuses (c : String) : ℕ :=
  if c = "North America" then 5
  else if c = "South America" then 2
  else if c = "Europe" then 5
  else if c = "Africa" then 3
  else if c = "Asia" then 7
  else if c = "Australia" then 2
  else 0

/-- `enviornment.py` `Territory`: owner is `None` or a player id, plus a
troop count (Python ints are modelled as `ℤ`). -/
structure Territory where
  name : String
  troop_count : ℤ
  owner : Option ℤ
deriving Repr, DecidableEq

/-- `enviornment.py` `Board.territories`: the dict is modelled as a total
function on names; operations that consult the key set guard on
`territoryNames`. -/
@[ext] structure Board where
  territories : String → Territory

/-- Overwriting one entry of the territory dict. -/
def Board.update (b : Board) (name : String) (t : Territory) : Board :=
  ⟨fun n => if n = name then t else b.territories n⟩

/-- `Board.get_territory`: `self.territories.get(name, None)`. -/
def get_territory (b : Board) (name : String) : Option Territory :=
  if name ∈ territoryNames then some (b.territories name) else none

/-- `Territory.add_troops`. -/
def add_troops (t : Territory) (troops : ℤ) : Territory :=
  { t with troop_count := t.troop_count + troops }

/-- `Board.calculate_troops` (enviornment.py lines 76-86). -/
def calculate_troops (b : Board) (player_id : ℤ) : ℕ :=
  let territories_owned :=
    territoryNames.countP (fun n => decide ((b.territories n).owner = some player_id))
  let territory_bonus := max (territories_owned / 3) 3
  let continent_bonus :=
    ((continents.filter (fun c =>
        c.2.all (fun t => decide ((b.territories t).owner = some player_id)))).map
      (fun c => continent_bonuses c.1)).sum
  territory_bonus + continent_bonus

/-- The spec's wording of the canonical income formula: `max(floor(T/3), 3) + B`
with `T` the number of territories owned by the player and `B` the sum of
`continent_bonuses[c]` over continents `c` entirely owned by the player. -/
def calculateTroopIncome_spec (b : Board) (p : ℤ) : ℕ :=
  let T := territoryNames.countP (fun n => decide ((b.territories n).owner = some p))
  let B := (continents.map (fun c =>
      if c.2.all (fun t => decide ((b.territories t).owner = some p)) then
        continent_bonuses c.1
      else 0)).sum
  max (T / 3) 3 + B

/-- A concrete board where `pid` owns exactly the listed regions (one troop
each) and `other` owns the rest. -/
def boardOwning (owned : List String) (pid other : ℤ) : Board :=
  ⟨fun n => ⟨n, 1, if n ∈ owned then some pid else some other⟩⟩

/-- Player 1 owns exactly three scattered territories, no full continent. -/
def board3 : Board := boardOwning ["Alaska", "Peru", "Egypt"] 1 2

/-- Player 1 owns exactly the nine North America territories (bonus 5). -/
def board9 : Board :=
  boardOwning ["Alaska", "Northwest_Territory", "Alberta", "Ontario", "Quebec",
    "Western_US", "Eastern_US", "Central_America", "Greenland"] 1 2

theorem sum_map_filter_eq {α : Type} (P : α → Bool) (f : α → ℕ) :
    ∀ l : List α, ((l.filter P).map f).sum = (l.map (fun c => if P c then f c else 0)).sum := by
  intro l
  induction l with
  | nil => simp
  | cons x xs ih =>
    by_cases h : P x = true
    · simp [List.filter_cons, h, ih]
    · simp only [Bool.not_eq_true] at h
      simp [List.filter_cons, h, ih]

/-- C1: `Board.calculate_troops(p)` returns `max(floor(T/3), 3) + B` where `T`
is the number of territories owned by `p` and `B` is the sum of the bonuses of
continents fully owned by `p`; a player owning exactly 3 territories and no
full continent gets 3, and a player owning the nine North America territories
(a full continent worth 5) gets 8. -/
theorem c1_troop_income :
    (∀ (b : Board) (p : ℤ), calculate_troops b p = calculateTroopIncome_spec b p) ∧
    calculate_troops board3 1 = 3 ∧ calculate_troops board9 1 = 8 := by
  refine ⟨?_, by decide, by decide⟩
  intro b p
  unfold calculate_troops calculateTroopIncome_spec
  rw [sum_map_filter_eq]

/-- `Territory.set_owner` (enviornment.py lines 252-255): raising
`ValueError` is modelled as `Except.error`. -/
def set_owner (player_id : Option ℤ) (t : Territory) : Except String Territory :=
  match player_id with
  | none => .ok { t with owner := none }
  | some p =>
    if 1 ≤ p ∧ p ≤ 4 then .ok { t with owner := some p }
    else .error "Invalid player ID."

/-- C10: `set_owner(v)` raises `ValueError` iff `v` is neither `None` nor an
integer in `1..4`; on success the owner becomes `v` and nothing else changes,
so every owner produced by `set_owner` is `None` or in `1..4` (the error case
leaves the territory untouched since the exception fires before assignment). -/
theorem c10_set_owner (v : Option ℤ) (t : Territory) :
    (set_owner v t = Except.error "Invalid player ID." ↔
      ¬(v = none ∨ ∃ k, v = some k ∧ 1 ≤ k ∧ k ≤ 4)) ∧
    ((∃ t', set_owner v t = Except.ok t') ↔
      (v = none ∨ ∃ k, v = some k ∧ 1 ≤ k ∧ k ≤ 4)) ∧
    (∀ t', set_owner v t = Except.ok t' →
      t'.owner = v ∧ t'.troop_count = t.troop_count ∧ t'.name = t.name ∧
      (t'.owner = none ∨ ∃ k, t'.owner = some k ∧ 1 ≤ k ∧ k ≤ 4)) := by
  rcases v with _ | p
  · refine ⟨by simp [set_owner], by simp [set_owner], ?_⟩
    intro t' h
    simp only [set_owner, Except.ok.injEq] at h
    subst h
    simp
  · by_cases hp : 1 ≤ p ∧ p ≤ 4
    · refine ⟨?_, ?_, ?_⟩
      · simp only [set_owner, if_pos hp]
        simp
        omega
      · simp only [set_owner, if_pos hp]
        simp
        omega
      · intro t' h
        simp only [set_owner, if_pos hp, Except.ok.injEq] at h
        subst h
        simp
        omega
    · refine ⟨?_, ?_, ?_⟩
      · simp only [set_owner, if_neg hp]
        simp
        omega
      · simp only [set_owner, if_neg hp]
        simp
        omega
      · intro t' h
        simp only [set_owner, if_neg hp] at h
        exact absurd h (by simp)

-- ----------------------------------------------------------------
-- risk_game.py: fortify_troops and post_attack_movement (claim C4)
-- ----------------------------------------------------------------

/-- `RiskGame.fortify_troops` (risk_game.py lines 212-216): returns the
updated (source, destination) pair. -/
def fortify_troops (from_territory to_territory : Territory) (move_amount : ℤ) :
    Territory × Territory :=
  let m := max 1 (min move_amount (from_territory.troop_count - 1))
  ({ from_territory with troop_count := from_territory.troop_count - m },
   { to_territory with troop_count := to_territory.troop_count + m })

/-- `RiskGame.post_attack_movement` (risk_game.py lines 168-180): returns the
updated (attacker, defender) pair; the defender also changes owner. -/
def post_attack_movement (attacker defender : Territory) (move_amount : ℤ) :
    Territory × Territory :=
  let m := max 1 (min move_amount (attacker.troop_count - 1))
  ({ attacker with troop_count := attacker.troop_count - m },
   { defender with owner := attacker.owner, troop_count := m })

/-- The clamp property claimed for both transfer operations: the moved amount
lies in `[1, source - 1]`, the source keeps at least one troop, the fortify
destination gains exactly the moved amount, and the post-capture defender
holds exactly the moved amount. -/
def TransferClamped (f t : Territory) (a : ℤ) : Prop :=
  1 ≤ f.troop_count - (fortify_troops f t a).1.troop_count ∧
  f.troop_count - (fortify_troops f t a).1.troop_count ≤ f.troop_count - 1 ∧
  1 ≤ (fortify_troops f t a).1.troop_count ∧
  (fortify_troops f t a).2.troop_count =
    t.troop_count + (f.troop_count - (fortify_troops f t a).1.troop_count) ∧
  1 ≤ f.troop_count - (post_attack_movement f t a).1.troop_count ∧
  f.troop_count - (post_attack_movement f t a).1.troop_count ≤ f.troop_count - 1 ∧
  1 ≤ (post_attack_movement f t a).1.troop_count ∧
  (post_attack_movement f t a).2.troop_count =
    f.troop_count - (post_attack_movement f t a).1.troop_count

/-- C4 counterexample: with a source of exactly 1 troop and a requested amount
of 1, `fortify_troops` still moves 1 troop (the clamp `max(1, min(a, src-1))`
never yields less than 1), emptying the source to 0 — the claimed bounds
`moved ≤ src - 1` and `source stays ≥ 1` both fail. -/
theorem c4_counterexample :
    (fortify_troops ⟨"Alaska", 1, some 1⟩ ⟨"Alberta", 1, some 1⟩ 1).1.troop_count = 0 ∧
    ¬(1 ≤ (fortify_troops ⟨"Alaska", 1, some 1⟩ ⟨"Alberta", 1, some 1⟩ 1).1.troop_count) ∧
    ¬(⟨"Alaska", (1:ℤ), some 1⟩ : Territory).troop_count -
        (fortify_troops ⟨"Alaska", 1, some 1⟩ ⟨"Alberta", 1, some 1⟩ 1).1.troop_count ≤
      (⟨"Alaska", (1:ℤ), some 1⟩ : Territory).troop_count - 1 := by
  refine ⟨by decide, by decide, by decide⟩

/-- C4 (amended): provided the source territory holds at least 2 troops, both
`fortify_troops` and `post_attack_movement` move an amount clamped to
`[1, sourceTroops - 1]` and never drop the source below 1 troop. -/
theorem c4_transfer_clamped (f t : Territory) (a : ℤ) (h : 2 ≤ f.troop_count) :
    TransferClamped f t a := by
  unfold TransferClamped fortify_troops post_attack_movement
  simp only
  rcases le_total a (f.troop_count - 1) with hle | hle <;>
    rcases le_total 1 a with h1 | h1 <;>
      constructor <;>
        simp_all [max_def, min_def] <;> omega

/-- C4 witness: the amended clamp property at a concrete transfer. -/
theorem c4_witness :
    TransferClamped ⟨"Alaska", 5, some 1⟩ ⟨"Alberta", 1, some 1⟩ 2 :=
  c4_transfer_clamped ⟨"Alaska", 5, some 1⟩ ⟨"Alberta", 1, some 1⟩ 2 (by decide)

-- ----------------------------------------------------------------
-- enviornment.py: Board.deploy_troops (claim C6)
-- ----------------------------------------------------------------

/-- `Board.deploy_troops` (enviornment.py lines 68-74): returns the success
flag and the (possibly) updated board. -/
def deploy_troops (b : Board) (player_id : ℤ) (territory : String) (troops : ℤ) :
    Bool × Board :=
  match get_territory b territory with
  | some target =>
    if target.owner = some player_id then
      (true, b.update territory (add_troops target troops))
    else (false, b)
  | none => (false, b)

/-- C6 counterexample: `deploy_troops` performs no `n >= 0` check, so a
negative deployment on an owned region succeeds (and subtracts troops),
refuting "succeeds only if ... n >= 0". -/
theorem c6_counterexample :
    (deploy_troops (boardOwning ["Alaska"] 1 2) 1 "Alaska" (-1)).1 = true ∧
    ((-1 : ℤ) < 0) ∧
    ((deploy_troops (boardOwning ["Alaska"] 1 2) 1 "Alaska" (-1)).2.territories
      "Alaska").troop_count = 0 := by
  refine ⟨by decide, by decide, by decide⟩

/-- C6 (amended): `deploy_troops(p, r, n)` succeeds iff `r` is a known region
owned by `p` (for any integer `n`, negative included); on success it adds
exactly `n` to `r`'s troop count and changes nothing else; on failure the
board is unchanged, and no exception is raised (the embedding is total). -/
theorem c6_deploy_troops (b : Board) (p : ℤ) (r : String) (n : ℤ) :
    ((deploy_troops b p r n).1 = true ↔
      r ∈ territoryNames ∧ (b.territories r).owner = some p) ∧
    ((deploy_troops b p r n).1 = true →
      ((deploy_troops b p r n).2.territories r).troop_count =
        (b.territories r).troop_count + n ∧
      ((deploy_troops b p r n).2.territories r).owner = (b.territories r).owner ∧
      ∀ x, x ≠ r → (deploy_troops b p r n).2.territories x = b.territories x) ∧
    ((deploy_troops b p r n).1 = false → (deploy_troops b p r n).2 = b) := by
  by_cases hmem : r ∈ territoryNames
  · by_cases hown : (b.territories r).owner = some p
    · refine ⟨by simp [deploy_troops, get_territory, hmem, hown], ?_, ?_⟩
      · intro _
        refine ⟨?_, ?_, ?_⟩
        · simp [deploy_troops, get_territory, hmem, hown, Board.update, add_troops]
        · simp [deploy_troops, get_territory, hmem, hown, Board.update, add_troops]
        · intro x hx
          simp [deploy_troops, get_territory, hmem, hown, Board.update, add_troops, hx]
      · intro hfalse
        simp [deploy_troops, get_territory, hmem, hown] at hfalse
    · refine ⟨by simp [deploy_troops, get_territory, hmem, hown], ?_, ?_⟩
      · intro htrue
        simp [deploy_troops, get_territory, hmem, hown] at htrue
      · intro _
        simp [deploy_troops, get_territory, hmem, hown]
  · refine ⟨by simp [deploy_troops, get_territory, hmem], ?_, ?_⟩
    · intro htrue
      simp [deploy_troops, get_territory, hmem] at htrue
    · intro _
      simp [deploy_troops, get_territory, hmem]

-- ----------------------------------------------------------------
-- risk_game.py: RiskGame state and turn/phase machine (claim C2)
-- ----------------------------------------------------------------

/-- `risk_game.py` `RiskGame`: the session state.  `players` is the list of
player types, `troops_to_deploy` the per-player deploy allotment dict. -/
structure RiskGame where
  players : List String
  board : Board
  current_player : ℤ
  phase : String
  troops_to_deploy : ℤ → ℤ
  game_over : Bool

/-- `RiskGame.calculate_initial_troops` (risk_game.py lines 42-44):
`max(3, owned // 3)` — note: no continent bonus. -/
def calculate_initial_troops (g : RiskGame) (player : ℤ) : ℕ :=
  max 3 ((territoryNames.countP
    (fun n => decide ((g.board.territories n).owner = some player))) / 3)

/-- `RiskGame.end_phase` (risk_game.py lines 55-69).  (For a `phase` outside
the phase order Python raises `ValueError` from `list.index`; that case is
unreachable in the claims, which start from `"deploy"`.) -/
def end_phase (g : RiskGame) : RiskGame :=
  let phase_order := ["deploy", "attack", "fortify"]
  let phase_index := phase_order.indexOf g.phase
  if phase_index = phase_order.length - 1 then
    let next := g.current_player + 1
    let cp := if next > (g.players.length : ℤ) then 1 else next
    { g with
      phase := "deploy"
      current_player := cp
      troops_to_deploy := fun p =>
        if p = cp then (calculate_initial_troops g cp : ℤ) else g.troops_to_deploy p }
  else
    { g with phase := phase_order.getD (phase_index + 1) "" }

/-- A two-player game in state (player 1, deploy) where player 2 owns exactly
the four South America territories (continent bonus 2) and player 1 the rest. -/
def gameC2 : RiskGame :=
  { players := ["User", "User"]
    board := boardOwning ["Venezuela", "Brazil", "Peru", "Argentina"] 2 1
    current_player := 1
    phase := "deploy"
    troops_to_deploy := fun _ => 0
    game_over := false }

/-- C2: evaluating the code on a concrete game: three `end_phase` calls from
(player 1, deploy) do reach (player 2, deploy), but player 2's allotment is
computed by `calculate_initial_troops` as `max(3, 4 // 3) = 3`, while the
canonical income `calculate_troops` (the formula the claim demands) yields
`3 + 2 = 5` on the same board: the allotment misses the continent bonus. -/
theorem c2_end_phase_income_bug :
    (end_phase (end_phase (end_phase gameC2))).current_player = 2 ∧
    (end_phase (end_phase (end_phase gameC2))).phase = "deploy" ∧
    (end_phase (end_phase (end_phase gameC2))).troops_to_deploy 2 = 3 ∧
    calculate_troops (end_phase (end_phase (end_phase gameC2))).board 2 = 5 ∧
    (end_phase (end_phase (end_phase gameC2))).troops_to_deploy 2 ≠
      (calculate_troops (end_phase (end_phase (end_phase gameC2))).board 2 : ℤ) := by
  refine ⟨by decide, by decide, by decide, by decide, by decide⟩

-- ----------------------------------------------------------------
-- risk_game.py: blitz combat resolver (claims C3 and C9)
-- ----------------------------------------------------------------

/-- Descending insertion used to model Python's `sorted(..., reverse=True)`. -/
def insertDesc (x : ℤ) : List ℤ → List ℤ
  | [] => [x]
  | y :: ys => if y ≤ x then x :: y :: ys else y :: insertDesc x ys

/-- Sort a list of die values highest to lowest. -/
def sortDesc : List ℤ → List ℤ
  | [] => []
  | x :: xs => insertDesc x (sortDesc xs)

/-- `RiskGame.roll_dice` (risk_game.py lines 89-91): the raw uniform die
values come from the dice oracle; the result is sorted highest to lowest. -/
def roll_dice (vals : List ℤ) : List ℤ := sortDesc vals

/-- The inner `for a, d in zip(attack_roll, defense_roll)` loop of
`blitz_attack`: each pair costs the defender one troop if the attacker's die
is strictly greater, otherwise the attacker loses one troop. -/
def fight : List (ℤ × ℤ) → ℤ × ℤ → ℤ × ℤ
  | [], s => s
  | (a, d) :: rest, s => if a > d then fight rest (s.1, s.2 - 1) else fight rest (s.1 - 1, s.2)

/-- `n` consecutive die values drawn from the oracle starting at index `k`. -/
def dieValues (dice : ℕ → ℤ) (k n : ℕ) : List ℤ :=
  (List.range n).map (fun i => dice (k + i))

/-- One iteration of the blitz while-loop body (risk_game.py lines 105-115):
roll `min(3, a - 1)` attacker dice and `min(2, d)` defender dice, sort both
descending, pair them up and apply the per-pair losses to `(a, d)`. -/
def combat_round (dice : ℕ → ℤ) (k : ℕ) (a d : ℤ) : ℤ × ℤ :=
  fight ((roll_dice (dieValues dice k (min 3 (a - 1)).toNat)).zip
         (roll_dice (dieValues dice (k + (min 3 (a - 1)).toNat) (min 2 d).toNat)))
        (a, d)

theorem length_insertDesc (x : ℤ) (l : List ℤ) :
    (insertDesc x l).length = l.length + 1 := by
  induction l with
  | nil => rfl
  | cons y ys ih =>
    rw [insertDesc]
    by_cases h : y ≤ x
    · simp [h]
    · simp [h, ih]

theorem length_sortDesc (l : List ℤ) : (sortDesc l).length = l.length := by
  induction l with
  | nil => rfl
  | cons x xs ih => rw [sortDesc, length_insertDesc, ih, List.length_cons]

theorem fight_bounds (l : List (ℤ × ℤ)) : ∀ (a d : ℤ),
    (fight l (a, d)).1 + (fight l (a, d)).2 = a + d - l.length ∧
    a - l.length ≤ (fight l (a, d)).1 ∧ (fight l (a, d)).1 ≤ a ∧
    d - l.length ≤ (fight l (a, d)).2 ∧ (fight l (a, d)).2 ≤ d := by
  induction l with
  | nil => intro a d; simp [fight]
  | cons p rest ih =>
    intro a d
    obtain ⟨x, y⟩ := p
    rw [fight]
    by_cases h : x > y
    · have := ih a (d - 1)
      simp only [if_pos h]
      simp only [List.length_cons]
      push_cast
      push_cast at this
      omega
    · have := ih (a - 1) d
      simp only [if_neg h]
      simp only [List.length_cons]
      push_cast
      push_cast at this
      omega

theorem combat_round_bounds (dice : ℕ → ℤ) (k : ℕ) (a d : ℤ)
    (ha : 1 < a) (hd : 0 < d) :
    (combat_round dice k a d).1 + (combat_round dice k a d).2 < a + d ∧
    1 ≤ (combat_round dice k a d).1 ∧ 0 ≤ (combat_round dice k a d).2 ∧
    ((combat_round dice k a d).2 ≤ 0 → 2 ≤ (combat_round dice k a d).1) := by
  unfold combat_round
  have hlen : ((roll_dice (dieValues dice k (min 3 (a - 1)).toNat)).zip
      (roll_dice (dieValues dice (k + (min 3 (a - 1)).toNat) (min 2 d).toNat))).length =
      min ((min 3 (a - 1)).toNat) ((min 2 d).toNat) := by
    rw [List.length_zip]
    unfold roll_dice dieValues
    rw [length_sortDesc, length_sortDesc, List.length_map, List.length_map,
      List.length_range, List.length_range]
  have hf := fight_bounds ((roll_dice (dieValues dice k (min 3 (a - 1)).toNat)).zip
      (roll_dice (dieValues dice (k + (min 3 (a - 1)).toNat) (min 2 d).toNat))) a d
  rw [hlen] at hf
  omega

/-- The `while attacker.troop_count > 1 and defender.troop_count > 0` loop of
`RiskGame.blitz_attack` (risk_game.py line 104), acting on the pair of troop
counts, consuming dice from the oracle. -/
def blitz_loop (dice : ℕ → ℤ) (k : ℕ) (a d : ℤ) : ℤ × ℤ :=
  if h : 1 < a ∧ 0 < d then
    blitz_loop dice (k + (min 3 (a - 1)).toNat + (min 2 d).toNat)
      (combat_round dice k a d).1 (combat_round dice k a d).2
  else (a, d)
termination_by (a + d).toNat
decreasing_by
  have := combat_round_bounds dice k a d h.1 h.2
  omega

theorem blitz_loop_safe (dice : ℕ → ℤ) : ∀ (n k : ℕ) (a d : ℤ),
    (a + d).toNat ≤ n → 1 ≤ a → 0 ≤ d → (d ≤ 0 → 2 ≤ a) →
    1 ≤ (blitz_loop dice k a d).1 ∧ 0 ≤ (blitz_loop dice k a d).2 ∧
    ((blitz_loop dice k a d).2 ≤ 0 → 2 ≤ (blitz_loop dice k a d).1) := by
  intro n
  induction n with
  | zero => intro k a d hn h1 h2 _; omega
  | succ m ih =>
    intro k a d hn h1 h2 h3
    rw [blitz_loop]
    by_cases h : 1 < a ∧ 0 < d
    · rw [dif_pos h]
      have hb := combat_round_bounds dice k a d h.1 h.2
      exact ih _ _ _ (by omega) (by omega) hb.2.2.1 hb.2.2.2
    · rw [dif_neg h]
      exact ⟨h1, h2, h3⟩

/-- Python truthiness of a `None`-able integer (`if winner:`). -/
def py_truthy (v : Option ℤ) : Bool :=
  match v with
  | none => false
  | some x => decide (x ≠ 0)

/-- `Board.check_winner` (enviornment.py lines 88-95); the identical owners
computation also opens `RiskGame.check_winner` (risk_game.py lines 46-53).
The Python `set` of owners is modelled as the deduplicated list. -/
def Board.check_winner (b : Board) : Option ℤ :=
  match (territoryNames.filterMap (fun n => (b.territories n).owner)).dedup with
  | [w] => some w
  | _ => none

/-- `RiskGame.check_winner` (risk_game.py lines 46-53): additionally sets
`game_over` when a single owner remains. -/
def RiskGame.check_winner (g : RiskGame) : Option ℤ × RiskGame :=
  match Board.check_winner g.board with
  | some w => (some w, { g with game_over := true })
  | none => (none, g)

/-- `RiskGame.blitz_attack` (risk_game.py lines 93-130) acting on two

territory names of the game's board.  The while loop leaves the counts at
`r`; on capture the defender changes owner, is set to 1 troop, the attacker
pays one troop, and the winner check runs; `True` is returned only in the
winner branch. -/
def blitz_attack (dice : ℕ → ℤ) (g : RiskGame) (attacker defender : String) :
    Bool × RiskGame :=
  let r := blitz_loop dice 0 (g.board.territories attacker).troop_count
      (g.board.territories defender).troop_count
  let b1 := (g.board.update attacker
      { (g.board.territories attacker) with troop_count := r.1 }).update defender
      { (g.board.territories defender) with troop_count := r.2 }
  if r.2 ≤ 0 then
    let b2 := b1.update defender
      { (b1.territories defender) with
        owner := (b1.territories attacker).owner
        troop_count := 1 }
    let b3 := b2.update attacker
      { (b2.territories attacker) with
        troop_count := (b2.territories attacker).troop_count - 1 }
    let p := RiskGame.check_winner { g with board := b3 }
    if py_truthy p.1 then (true, { p.2 with game_over := true }) else (false, p.2)
  else (false, { g with board := b1 })

/-- `RiskGame.is_valid_attack` (risk_game.py lines 221-228).  The Python
attribute `attacker.adjacent_territories` is defined nowhere in the source;
Modelled from the spec: "target is adjacent to source" (spec 4.2), i.e. the
static adjacency list of the attacking territory's name. -/
def is_valid_attack (g : RiskGame) (attacker defender : Territory) : Bool :=
  decide (attacker.owner = some g.current_player) &&
  !decide (defender.owner = some g.current_player) &&
  decide (defender.name ∈ adjacent attacker.name) &&
  decide (1 < attacker.troop_count)

/-- The possible results of `RiskGame.user_attack`: Python `False`, the pair
`(attack_from, attack_to)`, or the pair `(None, None)`. -/
inductive AttackOutcome where
  | rejected
  | captured (attack_from attack_to : String)
  | noCapture
deriving Repr, DecidableEq

/-- `RiskGame.user_attack` (risk_game.py lines 132-145). -/
def user_attack (dice : ℕ → ℤ) (g : RiskGame) (attack_from attack_to : String) :
    AttackOutcome × RiskGame :=
  if g.phase ≠ "attack" then (.rejected, g)
  else if ¬ is_valid_attack g (g.board.territories attack_from)
      (g.board.territories attack_to) then (.rejected, g)
  else
    let r := blitz_attack dice g attack_from attack_to
    if r.1 then (.captured attack_from attack_to, r.2) else (.noCapture, r.2)

/-- `RiskGame.ai_attack` (risk_game.py lines 153-166): runs the post-capture
movement only when `blitz_attack` returned `True`. -/
def ai_attack (dice : ℕ → ℤ) (g : RiskGame) (attack_from attack_to : String)
    (move_amount : ℤ) : Bool × RiskGame :=
  if g.phase ≠ "attack" then (false, g)
  else if ¬ is_valid_attack g (g.board.territories attack_from)
      (g.board.territories attack_to) then (false, g)
  else
    let r := blitz_attack dice g attack_from attack_to
    if r.1 then
      let m := post_attack_movement (r.2.board.territories attack_from)
          (r.2.board.territories attack_to) move_amount
      (true, { r.2 with board := (r.2.board.update attack_from m.1).update attack_to m.2 })
    else (true, r.2)

theorem check_winner_board (g : RiskGame) : ((RiskGame.check_winner g).2).board = g.board := by
  unfold RiskGame.check_winner
  rcases hw : Board.check_winner g.board with _ | w <;> simp [hw]

theorem truthy_check_winner {g : RiskGame}
    (h : py_truthy (RiskGame.check_winner g).1 = true) :
    Board.check_winner g.board ≠ none := by
  rcases hw : Board.check_winner g.board with _ | w
  · unfold RiskGame.check_winner at h
    rw [hw] at h
    simp [py_truthy] at h
  · simp

/-- A concrete attack-phase game: Alaska (player 1) has exactly 1 troop and
adjacent Alberta (player 2) has 0 troops. -/
def gameC3 : RiskGame :=
  { players := ["User", "User"]
    board := ⟨fun n =>
      if n = "Alaska" then ⟨n, 1, some 1⟩
      else if n = "Alberta" then ⟨n, 0, some 2⟩
      else ⟨n, 1, some 2⟩⟩
    current_player := 1
    phase := "attack"
    troops_to_deploy := fun _ => 0
    game_over := false }

/-- C3 counterexample: with attacker troops = 1 (allowed by the claim's
`attacker >= 1`) and defender troops = 0 (allowed by `defender >= 0`), no
combat round runs, yet the capture branch fires (`defender <= 0`) and the
one-troop deduction drops the attacker to 0 — below 1. -/
theorem c3_counterexample :
    1 ≤ (gameC3.board.territories "Alaska").troop_count ∧
    0 ≤ (gameC3.board.territories "Alberta").troop_count ∧
    ((blitz_attack (fun _ => 1) gameC3 "Alaska" "Alberta").2.board.territories
      "Alaska").troop_count = 0 := by
  have hb : blitz_loop (fun _ => 1) 0 (gameC3.board.territories "Alaska").troop_count
      (gameC3.board.territories "Alberta").troop_count = (1, 0) := by
    rw [show (gameC3.board.territories "Alaska").troop_count = (1 : ℤ) from rfl,
      show (gameC3.board.territories "Alberta").troop_count = (0 : ℤ) from rfl,
      blitz_loop]
    norm_num
  refine ⟨by decide, by decide, ?_⟩
  simp only [blitz_attack, hb]
  decide

/-- C3 (amended): for distinct territories with attacker troops >= 1 and
defender troops >= 1 (not >= 0), `blitz_attack` never leaves the attacker
below 1 troop (the capture deduction included), and the combat loop executes
no round when the attacker has <= 1 troops. -/
theorem c3_attacker_never_below_one (dice : ℕ → ℤ) (g : RiskGame) (an dn : String)
    (k : ℕ) (a d : ℤ) (hne : an ≠ dn)
    (ha : 1 ≤ (g.board.territories an).troop_count)
    (hd : 1 ≤ (g.board.territories dn).troop_count)
    (hstop : a ≤ 1) :
    1 ≤ ((blitz_attack dice g an dn).2.board.territories an).troop_count ∧
    blitz_loop dice k a d = (a, d) := by
  constructor
  · have hsafe := blitz_loop_safe dice
      ((g.board.territories an).troop_count + (g.board.territories dn).troop_count).toNat 0
      (g.board.territories an).troop_count (g.board.territories dn).troop_count
      le_rfl ha (by omega) (by omega)
    simp only [blitz_attack]
    by_cases hcap : (blitz_loop dice 0 (g.board.territories an).troop_count
        (g.board.territories dn).troop_count).2 ≤ 0
    · rw [if_pos hcap]
      split
      · simp only [Board.update, check_winner_board]
        simp [hne]
        omega
      · simp only [Board.update, check_winner_board]
        simp [hne]
        omega
    · rw [if_neg hcap]
      simp only [Board.update]
      simp [hne]
      omega
  · rw [blitz_loop, dif_neg (by omega : ¬(1 < a ∧ 0 < d))]

/-- C3 witness: concrete instantiation of the amended safety statement. -/
theorem c3_witness :
    1 ≤ ((blitz_attack (fun _ => 3) gameC2 "Venezuela" "Brazil").2.board.territories
      "Venezuela").troop_count ∧
    blitz_loop (fun _ => 3) 0 1 5 = (1, 5) :=
  c3_attacker_never_below_one (fun _ => 3) gameC2 "Venezuela" "Brazil" 0 1 5
    (by decide) (by decide) (by decide) (by decide)

theorem capture_branch_true (G : RiskGame) :
    (if py_truthy (RiskGame.check_winner G).1 then
        (true, { (RiskGame.check_winner G).2 with game_over := true })
      else (false, (RiskGame.check_winner G).2)).1 = true →
      Board.check_winner ((if py_truthy (RiskGame.check_winner G).1 then
        (true, { (RiskGame.check_winner G).2 with game_over := true })
      else (false, (RiskGame.check_winner G).2)).2).board ≠ none := by
  by_cases htr : py_truthy (RiskGame.check_winner G).1 = true
  · simp only [htr, if_true]
    intro _
    rw [check_winner_board]
    exact truthy_check_winner htr
  · simp [htr]

theorem capture_branch_false (G : RiskGame) :
    Board.check_winner ((if py_truthy (RiskGame.check_winner G).1 then
        (true, { (RiskGame.check_winner G).2 with game_over := true })
      else (false, (RiskGame.check_winner G).2)).2).board = none →
      (if py_truthy (RiskGame.check_winner G).1 then
        (true, { (RiskGame.check_winner G).2 with game_over := true })
      else (false, (RiskGame.check_winner G).2)).1 = false := by
  by_cases htr : py_truthy (RiskGame.check_winner G).1 = true
  · simp only [htr, if_true]
    intro hnone
    rw [check_winner_board] at hnone
    exact absurd hnone (truthy_check_winner htr)
  · simp [htr]

/-- C9: `blitz_attack` returns `True` only when the post-capture winner check
reports a winner; a capture (`r.2 <= 0`) with no winner returns `False`; and
consequently, on a valid attack whose blitz returned `False`, `user_attack`
returns `(None, None)` and `ai_attack` skips `post_attack_movement` (its
resulting state is exactly the blitz result). -/
theorem c9_true_only_on_win (dice : ℕ → ℤ) (g : RiskGame) (an dn : String) (ma : ℤ) :
    ((blitz_attack dice g an dn).1 = true →
      Board.check_winner (blitz_attack dice g an dn).2.board ≠ none) ∧
    ((blitz_loop dice 0 (g.board.territories an).troop_count
        (g.board.territories dn).troop_count).2 ≤ 0 →
      Board.check_winner (blitz_attack dice g an dn).2.board = none →
      (blitz_attack dice g an dn).1 = false) ∧
    (g.phase = "attack" →
      is_valid_attack g (g.board.territories an) (g.board.territories dn) = true →
      (blitz_attack dice g an dn).1 = false →
      user_attack dice g an dn = (AttackOutcome.noCapture, (blitz_attack dice g an dn).2)) ∧
    (g.phase = "attack" →
      is_valid_attack g (g.board.territories an) (g.board.territories dn) = true →
      (blitz_attack dice g an dn).1 = false →
      ai_attack dice g an dn ma = (true, (blitz_attack dice g an dn).2)) := by
  refine ⟨?_, ?_, ?_, ?_⟩
  · simp only [blitz_attack]
    by_cases hcap : (blitz_loop dice 0 (g.board.territories an).troop_count
        (g.board.territories dn).troop_count).2 ≤ 0
    · rw [if_pos hcap]
      exact capture_branch_true _
    · rw [if_neg hcap]
      intro h
      simp at h
  · simp only [blitz_attack]
    by_cases hcap : (blitz_loop dice 0 (g.board.territories an).troop_count
        (g.board.territories dn).troop_count).2 ≤ 0
    · rw [if_pos hcap]
      intro _
      exact capture_branch_false _
    · intro h
      exact absurd h hcap
  · intro hphase hvalid hfalse
    simp only [user_attack, hphase, hvalid]
    simp [hfalse]
  · intro hphase hvalid hfalse
    simp only [ai_attack, hphase, hvalid]
    simp [hfalse]

-- ----------------------------------------------------------------
-- risk_server.py: wire framing and the command loop (claim C5)
-- ----------------------------------------------------------------

/-- `buffer.split("\n", 1)`: splits the byte buffer (modelled as a character
list) at the first newline into (one complete command, remaining buffer);
`none` when no newline has arrived yet (the Python loop keeps calling
`recv`). -/
def split_first_newline : List Char → Option (List Char × List Char)
  | [] => none
  | c :: rest =>
    if c = '\n' then some ([], rest)
    else
      match split_first_newline rest with
      | none => none
      | some (pre, post) => some (c :: pre, post)

/-- Python `str.strip()`: drop whitespace from both ends. -/
def strip_ends (s : List Char) : List Char :=
  (((s.dropWhile Char.isWhitespace).reverse).dropWhile Char.isWhitespace).reverse

/-- `RiskServer.get_next_command` (risk_server.py lines 31-71), parsing stage:
once a newline-terminated frame is buffered, the frame is split off, stripped
and handed to `json.loads` (the external parser `jsonLoads`, returning `none`
on `JSONDecodeError`, in which case the command is dropped and `None` is
returned — with the frame already consumed from the buffer).  The result is
`(returned command, new buffer)`; an incomplete frame keeps blocking. -/
def get_next_command {α : Type} (jsonLoads : List Char → Option α)
    (buffer : List Char) : Option (Option α × List Char) :=
  match split_first_newline buffer with
  | none => none
  | some (command_str, rest) => some (jsonLoads (strip_ends command_str), rest)

/-- `RiskServer.run_game` (risk_server.py lines 260-266): the main loop's
reaction to the value returned by `get_next_command` — `if command is None:
break`, i.e. the loop exits (session ends) exactly when the command is
`None`. -/
def run_game_breaks {α : Type} (command : Option α) : Bool :=
  command.isNone

/-- C5: the code drops a malformed frame but then terminates the session: on
the buffer `"oops\nrest"` with `json.loads` failing on `"oops"`,
`get_next_command` consumes the frame and returns `None`, and `run_game`'s
loop breaks on `None` (its `None` check conflates parse failure with client
disconnect), ending the session instead of continuing with `"rest"`. -/
theorem c5_malformed_frame_ends_session {α : Type}
    (jsonLoads : List Char → Option α)
    (h : jsonLoads "oops".toList = none) :
    get_next_command jsonLoads "oops\nrest".toList = some (none, "rest".toList) ∧
    run_game_breaks (none : Option α) = true := by
  constructor
  · have e : get_next_command jsonLoads "oops\nrest".toList =
        some (jsonLoads "oops".toList, "rest".toList) := rfl
    rw [e, h]
  · rfl

/-- C5 witness: the always-failing parser satisfies the hypothesis. -/
theorem c5_witness :
    get_next_command (fun _ => (none : Option Unit)) "oops\nrest".toList =
      some (none, "rest".toList) ∧
    run_game_breaks (none : Option Unit) = true :=
  c5_malformed_frame_ends_session (fun _ => none) rfl

-- ----------------------------------------------------------------
-- enviornment.py: Board.generate_random_board (claim C7)
-- ----------------------------------------------------------------

/-- A freshly constructed `Territory` (`Territory.__init__`): no owner, zero
troops. -/
def freshTerritory (name : String) : Territory := ⟨name, 0, none⟩

/-- `Territory.initialize_territories()`: the fresh dict the generator starts
from. -/
def freshBoard : Board := ⟨fun n => freshTerritory n⟩

/-- The inner `for name in chunk` loop of `generate_random_board`
(enviornment.py lines 113-116): `set_owner(player_id)` (which can raise) then
`troop_count = 1`, territory by territory. -/
def assign_chunk (player_id : ℤ) : List String → Board → Except String Board
  | [], b => .ok b
  | name :: rest, b =>
    match set_owner (some player_id) (b.territories name) with
    | .error e => .error e
    | .ok t => assign_chunk player_id rest (b.update name { t with troop_count := 1 })

/-- The outer `for player_id in range(1, num_players + 1)` loop
(enviornment.py lines 106-117): each player takes `base_count` names (one
more while `remainder > 0`) off the front of the shuffled list. -/
def assign_players (base : ℕ) : List ℕ → ℕ → List String → Board → Except String Board
  | [], _, _, b => .ok b
  | player_id :: rest, remainder, names, b =>
    match assign_chunk (player_id : ℤ)
        (names.take (if 0 < remainder then base + 1 else base)) b with
    | .error e => .error e
    | .ok b2 => assign_players base rest (if 0 < remainder then remainder - 1 else remainder)
        (names.drop (if 0 < remainder then base + 1 else base)) b2

/-- `Board.generate_random_board` (enviornment.py lines 97-117) on a fresh
board, parameterised by the shuffled name list (`random.shuffle` output) and
the player count (`self.num_players`). -/
def generate_random_board (num_players : ℕ) (shuffled : List String) :
    Except String Board :=
  assign_players (shuffled.length / num_players) (List.range' 1 num_players)
    (shuffled.length % num_players) shuffled freshBoard

/-- C7 counterexample: for `n = 5` players (allowed by the claim's `n >= 1`),
`set_owner(5)` raises `ValueError`, so `generate_random_board` crashes instead
of producing a board with the claimed properties. -/
theorem c7_counterexample :
    generate_random_board 5 territoryNames = .error "Invalid player ID." ∧
    ∀ b, generate_random_board 5 territoryNames ≠ .ok b := by
  constructor
  · rfl
  · intro b h
    rw [show generate_random_board 5 territoryNames = .error "Invalid player ID."
      from rfl] at h
    exact Except.noConfusion h

theorem assign_chunk_ok (p : ℤ) (hp1 : 1 ≤ p) (hp4 : p ≤ 4) :
    ∀ (chunk : List String) (b : Board),
    assign_chunk p chunk b = .ok ⟨fun n =>
      if n ∈ chunk then { (b.territories n) with owner := some p, troop_count := 1 }
      else b.territories n⟩ := by
  intro chunk
  induction chunk with
  | nil =>
    intro b
    simp only [assign_chunk, List.not_mem_nil, if_false]
  | cons nm rest ih =>
    intro b
    rw [assign_chunk,
      show set_owner (some p) (b.territories nm) =
        .ok { (b.territories nm) with owner := some p } from by
          simp [set_owner, hp1, hp4]]
    show assign_chunk p rest (b.update nm
      { (b.territories nm) with owner := some p, troop_count := 1 }) = _
    rw [ih]
    congr 1
    ext n : 2
    by_cases h1 : n = nm <;> by_cases h2 : n ∈ rest <;>
      simp [h1, h2, Board.update]

/-- The chunk size handed to each player by the outer loop: `base_count`,
plus one while `remainder` lasts. -/
def portionOf (base : ℕ) : List ℕ → ℕ → ℕ → ℕ
  | [], _, _ => 0
  | q :: rest, rem, p =>
    if p = q then (if 0 < rem then base + 1 else base)
    else portionOf base rest (if 0 < rem then rem - 1 else rem) p

theorem portionOf_not_mem (base : ℕ) :
    ∀ (ps : List ℕ) (rem p : ℕ), p ∉ ps → portionOf base ps rem p = 0 := by
  intro ps
  induction ps with
  | nil => intro rem p _; rfl
  | cons q rest ih =>
    intro rem p hp
    rw [portionOf, if_neg (by intro he; exact hp (he ▸ List.mem_cons_self q rest))]
    exact ih _ _ (fun hm => hp (List.mem_cons_of_mem q hm))

theorem portionOf_range' (base : ℕ) :
    ∀ (m k rem p : ℕ), portionOf base (List.range' k m) rem p =
      if k ≤ p ∧ p < k + m then base + (if p < k + rem then 1 else 0) else 0 := by
  intro m
  induction m with
  | zero =>
    intro k rem p
    rw [show List.range' k 0 = ([] : List ℕ) from rfl, portionOf,
      if_neg (by omega : ¬(k ≤ p ∧ p < k + 0))]
  | succ m ih =>
    intro k rem p
    rw [List.range'_succ, portionOf]
    by_cases hp : p = k
    · subst hp
      split_ifs <;> omega
    · rw [if_neg hp, ih]
      split_ifs <;> omega

theorem assign_players_spec (base : ℕ) :
    ∀ (ps : List ℕ) (rem : ℕ) (names : List String) (b : Board),
    (∀ q ∈ ps, 1 ≤ q ∧ q ≤ 4) →
    ps.Nodup →
    names.Nodup →
    names.length = base * ps.length + min rem ps.length →
    ∃ b2, assign_players base ps rem names b = .ok b2 ∧
      (∀ nm, nm ∉ names → b2.territories nm = b.territories nm) ∧
      (∀ nm ∈ names, ∃ q ∈ ps, b2.territories nm =
        { (b.territories nm) with owner := some (q : ℤ), troop_count := 1 }) ∧
      (∀ q : ℕ, names.countP
          (fun nm => decide ((b2.territories nm).owner = some (q : ℤ))) =
        portionOf base ps rem q) := by
  intro ps
  induction ps with
  | nil =>
    intro rem names b _ _ _ hlen
    have hnil : names = [] := List.length_eq_zero.mp (by simpa using hlen)
    subst hnil
    exact ⟨b, rfl, fun nm _ => rfl, by simp, fun q => rfl⟩
  | cons pid rest ih =>
    intro rem names b hq hnodup_ps hnodup hlen
    have hpid := hq pid (List.mem_cons_self _ _)
    have hlen1 : names.length = base * rest.length + base + min rem (rest.length + 1) := by
      rw [hlen, List.length_cons, Nat.mul_succ]
    set portion := if 0 < rem then base + 1 else base with hportion
    have hple : portion ≤ names.length := by
      rw [hportion]
      rcases Nat.eq_zero_or_pos rem with h0 | h0 <;> simp [h0] <;> omega
    set b1 : Board := ⟨fun n => if n ∈ names.take portion then
        { (b.territories n) with owner := some (pid : ℤ), troop_count := 1 }
      else b.territories n⟩ with hb1
    have hq' : ∀ q ∈ rest, 1 ≤ q ∧ q ≤ 4 := fun q hm => hq q (List.mem_cons_of_mem _ hm)
    have hnodup_rest : rest.Nodup := (List.nodup_cons.mp hnodup_ps).2
    have hpid_not : pid ∉ rest := (List.nodup_cons.mp hnodup_ps).1
    have hnodup_drop : (names.drop portion).Nodup :=
      (List.drop_sublist portion names).nodup hnodup
    have hlen_drop : (names.drop portion).length =
        base * rest.length + min (if 0 < rem then rem - 1 else rem) rest.length := by
      rw [List.length_drop, hlen1, hportion]
      rcases Nat.eq_zero_or_pos rem with h0 | h0 <;> simp [h0] <;> omega
    obtain ⟨b2, hrun, hout, hmem, hcount⟩ :=
      ih (if 0 < rem then rem - 1 else rem) (names.drop portion) b1
        hq' hnodup_rest hnodup_drop hlen_drop
    have happ : names.take portion ++ names.drop portion = names :=
      List.take_append_drop portion names
    have hnodup_app : (names.take portion ++ names.drop portion).Nodup := by
      rwa [happ]
    obtain ⟨-, -, hdisj⟩ := List.nodup_append.mp hnodup_app
    have htake_len : (names.take portion).length = portion := by
      rw [List.length_take]
      omega
    have hb1_take : ∀ nm ∈ names.take portion,
        b1.territories nm = { (b.territories nm) with owner := some (pid : ℤ), troop_count := 1 } := by
      intro nm hm
      rw [hb1]
      exact if_pos hm
    have hb1_out : ∀ nm, nm ∉ names.take portion → b1.territories nm = b.territories nm := by
      intro nm hm
      rw [hb1]
      exact if_neg hm
    have hb2_take : ∀ nm ∈ names.take portion,
        b2.territories nm = { (b.territories nm) with owner := some (pid : ℤ), troop_count := 1 } := by
      intro nm hm
      rw [hout nm (fun hd => hdisj hm hd), hb1_take nm hm]
    have hrun_goal : assign_players base (pid :: rest) rem names b = .ok b2 := by
      rw [assign_players,
        assign_chunk_ok (pid : ℤ) (by exact_mod_cast hpid.1) (by exact_mod_cast hpid.2)
          (names.take portion) b]
      exact hrun
    refine ⟨b2, hrun_goal, ?_, ?_, ?_⟩
    · intro nm hnm
      have h1 : nm ∉ names.take portion := fun hm => hnm ((List.take_subset portion names) hm)
      have h2 : nm ∉ names.drop portion := fun hm => hnm ((List.drop_subset portion names) hm)
      rw [hout nm h2, hb1_out nm h1]
    · intro nm hnm
      have : nm ∈ names.take portion ++ names.drop portion := by rwa [happ]
      rcases List.mem_append.mp this with h | h
      · exact ⟨pid, List.mem_cons_self _ _, hb2_take nm h⟩
      · obtain ⟨q, hqr, heq⟩ := hmem nm h
        refine ⟨q, List.mem_cons_of_mem _ hqr, ?_⟩
        rw [heq, hb1_out nm (fun ht => hdisj ht h)]
    · intro q
      have hsplit : names.countP
          (fun nm => decide ((b2.territories nm).owner = some (q : ℤ))) =
          (names.take portion).countP
            (fun nm => decide ((b2.territories nm).owner = some (q : ℤ))) +
          (names.drop portion).countP
            (fun nm => decide ((b2.territories nm).owner = some (q : ℤ))) := by
        rw [← List.countP_append, happ]
      rw [hsplit, hcount q, portionOf]
      by_cases hqq : q = pid
      · subst hqq
        rw [if_pos rfl, portionOf_not_mem base rest _ q hpid_not]
        have : (names.take portion).countP
            (fun nm => decide ((b2.territories nm).owner = some (q : ℤ))) =
            (names.take portion).length := by
          apply List.countP_eq_length.mpr
          intro nm hm
          rw [hb2_take nm hm]
          simp
        rw [this, htake_len, Nat.add_zero, hportion]
      · rw [if_neg hqq]
        have : (names.take portion).countP
            (fun nm => decide ((b2.territories nm).owner = some (q : ℤ))) = 0 := by
          apply List.countP_eq_zero.mpr
          intro nm hm
          rw [hb2_take nm hm]
          simp
          exact fun hc => hqq (by exact_mod_cast hc.symm)
        rw [this, Nat.zero_add]

/-- C7 (amended): for `1 <= n <= 4` players and any shuffle of the region
list, `generate_random_board` succeeds, every region is owned by one player in
`1..n` with exactly one troop, each player `q` receives `42/n` regions plus
one more iff `q <= 42 % n`, and any two players' region counts differ by at
most 1. -/
theorem c7_random_board (n : ℕ) (shuffled : List String)
    (hn1 : 1 ≤ n) (hn4 : n ≤ 4) (hperm : shuffled.Perm territoryNames) :
    ∃ b, generate_random_board n shuffled = .ok b ∧
      (∀ nm ∈ territoryNames, ∃ q : ℕ, 1 ≤ q ∧ q ≤ n ∧
        (b.territories nm).owner = some (q : ℤ) ∧ (b.territories nm).troop_count = 1) ∧
      (∀ q : ℕ, 1 ≤ q → q ≤ n →
        territoryNames.countP (fun nm => decide ((b.territories nm).owner = some (q : ℤ))) =
          42 / n + (if q ≤ 42 % n then 1 else 0)) ∧
      (∀ q1 q2 : ℕ, 1 ≤ q1 → q1 ≤ n → 1 ≤ q2 → q2 ≤ n →
        territoryNames.countP (fun nm => decide ((b.territories nm).owner = some (q1 : ℤ))) ≤
          territoryNames.countP
            (fun nm => decide ((b.territories nm).owner = some (q2 : ℤ))) + 1) := by
  have hlen42 : shuffled.length = 42 := by rw [hperm.length_eq]; rfl
  have hnodup : shuffled.Nodup := hperm.nodup_iff.mpr (by decide)
  have hq : ∀ q ∈ List.range' 1 n, 1 ≤ q ∧ q ≤ 4 := by
    intro q hmem
    rw [List.mem_range'_1] at hmem
    omega
  have hnodup_range : (List.range' 1 n).Nodup := List.nodup_range' 1 n
  have hmod : 42 % n < n := Nat.mod_lt _ (by omega)
  have hlen_req : shuffled.length =
      (42 / n) * (List.range' 1 n).length + min (42 % n) (List.range' 1 n).length := by
    rw [hlen42, List.length_range', min_eq_left (le_of_lt hmod), Nat.mul_comm]
    exact (Nat.div_add_mod 42 n).symm
  obtain ⟨b, hrun, hout, hmem, hcount⟩ :=
    assign_players_spec (42 / n) (List.range' 1 n) (42 % n) shuffled freshBoard
      hq hnodup_range hnodup hlen_req
  have hrun' : generate_random_board n shuffled = .ok b := by
    unfold generate_random_board
    rw [hlen42]
    exact hrun
  refine ⟨b, hrun', ?_, ?_, ?_⟩
  · intro nm hnm
    obtain ⟨q, hqm, heq⟩ := hmem nm (hperm.mem_iff.mpr hnm)
    rw [List.mem_range'_1] at hqm
    exact ⟨q, hqm.1, by omega, by rw [heq], by rw [heq]⟩
  · intro q h1 h2
    rw [← hperm.countP_eq, hcount q, portionOf_range']
    rw [if_pos (by omega : 1 ≤ q ∧ q < 1 + n)]
    congr 1
    split_ifs <;> omega
  · intro q1 q2 h11 h12 h21 h22
    rw [← hperm.countP_eq, ← hperm.countP_eq, hcount q1, hcount q2,
      portionOf_range', portionOf_range',
      if_pos (by omega : 1 ≤ q1 ∧ q1 < 1 + n), if_pos (by omega : 1 ≤ q2 ∧ q2 < 1 + n)]
    split_ifs <;> omega

/-- C7 witness: the amended statement instantiated at `n = 4` and the
identity shuffle. -/
theorem c7_witness :
    ∃ b, generate_random_board 4 territoryNames = .ok b ∧
      (∀ nm ∈ territoryNames, ∃ q : ℕ, 1 ≤ q ∧ q ≤ 4 ∧
        (b.territories nm).owner = some (q : ℤ) ∧ (b.territories nm).troop_count = 1) ∧
      (∀ q : ℕ, 1 ≤ q → q ≤ 4 →
        territoryNames.countP (fun nm => decide ((b.territories nm).owner = some (q : ℤ))) =
          42 / 4 + (if q ≤ 42 % 4 then 1 else 0)) ∧
      (∀ q1 q2 : ℕ, 1 ≤ q1 → q1 ≤ 4 → 1 ≤ q2 → q2 ≤ 4 →
        territoryNames.countP (fun nm => decide ((b.territories nm).owner = some (q1 : ℤ))) ≤
          territoryNames.countP
            (fun nm => decide ((b.territories nm).owner = some (q2 : ℤ))) + 1) :=
  c7_random_board 4 territoryNames (by decide) (by decide) (List.Perm.refl _)

-- ----------------------------------------------------------------
-- Enviornment.py: boardmanagement.find_connected_territories (claim C8)
-- ----------------------------------------------------------------

theorem card_sdiff_insert_lt (s v : Finset String) (a : String)
    (ha : a ∈ s) (hav : a ∉ v) : (s \ insert a v).card < (s \ v).card := by
  apply Finset.card_lt_card
  rw [Finset.ssubset_iff_of_subset
    (Finset.sdiff_subset_sdiff (le_refl s) (Finset.subset_insert a v))]
  exact ⟨a, Finset.mem_sdiff.mpr ⟨ha, hav⟩, by simp⟩

/-- Every neighbour in the adjacency table is itself a key of the table. -/
theorem adjacency_values_closed :
    territories_with_adjacency.all
      (fun pr => pr.2.all (fun nb => decide (nb ∈ territoryNames))) = true := by decide

theorem adjacent_mem_names (x nb : String) (h : nb ∈ adjacent x) :
    nb ∈ territoryNames := by
  unfold adjacent at h
  rcases hl : territories_with_adjacency.lookup x with _ | v
  · rw [hl] at h
    simp at h
  · rw [hl] at h
    simp only [Option.getD_some] at h
    obtain ⟨l₁, l₂, heq, -⟩ := List.lookup_eq_some_iff.mp hl
    have hmem : (x, v) ∈ territories_with_adjacency := by
      rw [heq]
      exact List.mem_append_right _ (List.mem_cons_self _ _)
    have hall := adjacency_values_closed
    rw [List.all_eq_true] at hall
    have h2 := hall (x, v) hmem
    rw [List.all_eq_true] at h2
    exact of_decide_eq_true (h2 nb h)

/-- The `while stack:` loop of `find_connected_territories` (Enviornment.py
lines 119-133).  `td` is the ownership assignment `territory_data[...]
["owner"]`, `visited` the Python set, the stack top is the list head (Python
appends and pops at the end).  A `KeyError` from
`territories_with_adjacency[current]` is modelled as `.error ()` (Python would
raise it just after recording `current`; the partial results are discarded
either way). -/
def fct_loop (td : String → ℤ) (pid : ℤ) (source : String) :
    List String → Finset String → List String → Except Unit (List String)
  | [], _, connected => .ok connected
  | current :: stack, visited, connected =>
    if hvis : current ∈ visited then fct_loop td pid source stack visited connected
    else if hmem : current ∈ territoryNames then
      fct_loop td pid source
        ((adjacent current).foldl
          (fun s nb =>
            if nb ∉ insert current visited ∧ td nb = pid then nb :: s else s) stack)
        (insert current visited)
        (if current ≠ source ∧ td current = pid then connected ++ [current] else connected)
    else .error ()
termination_by stack visited _ => ((territoryNames.toFinset \ visited).card, stack.length)
decreasing_by
  · exact Prod.Lex.right _ (by simp)
  · exact Prod.Lex.left _ _
      (card_sdiff_insert_lt _ _ _ (List.mem_toFinset.mpr hmem) hvis)

/-- `boardmanagement.find_connected_territories(player_id, source,
territory_data)` (Enviornment.py lines 112-133). -/
def find_connected_territories (player_id : ℤ) (source : String)
    (td : String → ℤ) : Except Unit (List String) :=
  fct_loop td player_id source [source] ∅ []

/-- One traversal edge: `y` is adjacent to `x` and owned by the player. -/
def StepOwned (td : String → ℤ) (pid : ℤ) (x y : String) : Prop :=
  y ∈ adjacent x ∧ td y = pid

/-- `x` is reachable from `source` through player-owned territories. -/
def ReachesOwned (td : String → ℤ) (pid : ℤ) (source x : String) : Prop :=
  Relation.ReflTransGen (StepOwned td pid) source x

theorem reaches_mem_names {td : String → ℤ} {pid : ℤ} {source x : String}
    (hsrc : source ∈ territoryNames) (h : ReachesOwned td pid source x) :
    x ∈ territoryNames := by
  rcases Relation.ReflTransGen.cases_tail h with rfl | ⟨y, _, hstep⟩
  · exact hsrc
  · exact adjacent_mem_names y x hstep.1

theorem closed_reach {td : String → ℤ} {pid : ℤ} {source : String}
    {visited : Finset String} (hvs : source ∈ visited)
    (hclosed : ∀ y ∈ visited, ∀ nb ∈ adjacent y, td nb = pid → nb ∈ visited) :
    ∀ x, ReachesOwned td pid source x → x ∈ visited := by
  intro x h
  induction h with
  | refl => exact hvs
  | tail _ hbc ih => exact hclosed _ ih _ hbc.1 hbc.2

theorem mem_push_foldl (td : String → ℤ) (pid : ℤ) (v : Finset String) :
    ∀ (l : List String) (s : List String) (x : String),
    x ∈ l.foldl (fun s nb => if nb ∉ v ∧ td nb = pid then nb :: s else s) s ↔
      x ∈ s ∨ (x ∈ l ∧ x ∉ v ∧ td x = pid) := by
  intro l
  induction l with
  | nil => simp
  | cons a rest ih =>
    intro s x
    rw [List.foldl_cons]
    by_cases ha : a ∉ v ∧ td a = pid
    · rw [if_pos ha, ih]
      constructor
      · rintro (hx | hx)
        · rcases List.mem_cons.mp hx with rfl | hx
          · exact Or.inr ⟨List.mem_cons_self _ _, ha.1, ha.2⟩
          · exact Or.inl hx
        · exact Or.inr ⟨List.mem_cons_of_mem _ hx.1, hx.2⟩
      · rintro (hx | ⟨hx, hp⟩)
        · exact Or.inl (List.mem_cons_of_mem _ hx)
        · rcases List.mem_cons.mp hx with rfl | hx
          · exact Or.inl (List.mem_cons_self _ _)
          · exact Or.inr ⟨hx, hp⟩
    · rw [if_neg ha, ih]
      constructor
      · rintro (hx | ⟨hx, hp⟩)
        · exact Or.inl hx
        · exact Or.inr ⟨List.mem_cons_of_mem _ hx, hp⟩
      · rintro (hx | ⟨hx, hp⟩)
        · exact Or.inl hx
        · rcases List.mem_cons.mp hx with rfl | hx
          · exact absurd ⟨hp.1, hp.2⟩ ha
          · exact Or.inr ⟨hx, hp⟩

theorem fct_loop_spec (td : String → ℤ) (pid : ℤ) (source : String)
    (hsrc : source ∈ territoryNames) :
    ∀ (stack : List String) (visited : Finset String) (connected : List String),
    (∀ x ∈ stack, x = source ∨ (td x = pid ∧ ReachesOwned td pid source x)) →
    (∀ x ∈ visited, x = source ∨ (td x = pid ∧ ReachesOwned td pid source x)) →
    (source ∈ visited ∨ source ∈ stack) →
    (∀ y ∈ visited, ∀ nb ∈ adjacent y, td nb = pid → nb ∈ visited ∨ nb ∈ stack) →
    (∀ x, x ∈ connected ↔ (x ∈ visited ∧ x ≠ source ∧ td x = pid)) →
    connected.Nodup →
    ∃ l, fct_loop td pid source stack visited connected = .ok l ∧ l.Nodup ∧
      ∀ x, x ∈ l ↔ (x ≠ source ∧ td x = pid ∧ ReachesOwned td pid source x) := by
  intro stack visited connected
  induction stack, visited, connected using fct_loop.induct td pid source with
  | case1 visited connected =>
    intro _ h2 h3 h4 h5 h6
    have hvs : source ∈ visited := by
      rcases h3 with h | h
      · exact h
      · exact absurd h (List.not_mem_nil _)
    have hcl : ∀ y ∈ visited, ∀ nb ∈ adjacent y, td nb = pid → nb ∈ visited := by
      intro y hy nb hnb hpd
      rcases h4 y hy nb hnb hpd with h | h
      · exact h
      · exact absurd h (List.not_mem_nil _)
    refine ⟨connected, by rw [fct_loop], h6, ?_⟩
    intro x
    rw [h5 x]
    constructor
    · rintro ⟨hxv, hne, hpd⟩
      refine ⟨hne, hpd, ?_⟩
      rcases h2 x hxv with rfl | ⟨-, hr⟩
      · exact absurd rfl hne
      · exact hr
    · rintro ⟨hne, hpd, hr⟩
      exact ⟨closed_reach hvs hcl x hr, hne, hpd⟩
  | case2 current stack visited connected hvis ih =>
    intro h1 h2 h3 h4 h5 h6
    rw [fct_loop, dif_pos hvis]
    apply ih
    · exact fun x hx => h1 x (List.mem_cons_of_mem _ hx)
    · exact h2
    · rcases h3 with h | h
      · exact Or.inl h
      · rcases List.mem_cons.mp h with rfl | h
        · exact Or.inl hvis
        · exact Or.inr h
    · intro y hy nb hnb hpd
      rcases h4 y hy nb hnb hpd with h | h
      · exact Or.inl h
      · rcases List.mem_cons.mp h with rfl | h
        · exact Or.inl hvis
        · exact Or.inr h
    · exact h5
    · exact h6
  | case3 current stack visited connected hvis hmem ih =>
    intro h1 h2 h3 h4 h5 h6
    rw [fct_loop, dif_neg hvis, dif_pos hmem]
    have hrc : ReachesOwned td pid source current := by
      rcases h1 current (List.mem_cons_self _ _) with rfl | ⟨-, hr⟩
      · exact Relation.ReflTransGen.refl
      · exact hr
    apply ih
    · intro x hx
      rcases (mem_push_foldl td pid (insert current visited) _ _ _).mp hx with
        hx | ⟨hadj, -, hpd⟩
      · exact h1 x (List.mem_cons_of_mem _ hx)
      · exact Or.inr ⟨hpd, hrc.tail ⟨hadj, hpd⟩⟩
    · intro x hx
      rcases Finset.mem_insert.mp hx with rfl | hx
      · exact h1 x (List.mem_cons_self _ _)
      · exact h2 x hx
    · rcases h3 with h | h
      · exact Or.inl (Finset.mem_insert_of_mem h)
      · rcases List.mem_cons.mp h with rfl | h
        · exact Or.inl (Finset.mem_insert_self _ _)
        · exact Or.inr ((mem_push_foldl td pid _ _ _ _).mpr (Or.inl h))
    · intro y hy nb hnb hpd
      rcases Finset.mem_insert.mp hy with rfl | hy
      · by_cases hni : nb ∈ insert y visited
        · exact Or.inl hni
        · exact Or.inr ((mem_push_foldl td pid _ _ _ _).mpr (Or.inr ⟨hnb, hni, hpd⟩))
      · rcases h4 y hy nb hnb hpd with h | h
        · exact Or.inl (Finset.mem_insert_of_mem h)
        · rcases List.mem_cons.mp h with rfl | h
          · exact Or.inl (Finset.mem_insert_self _ _)
          · exact Or.inr ((mem_push_foldl td pid _ _ _ _).mpr (Or.inl h))
    · intro x
      by_cases hc : current ≠ source ∧ td current = pid
      · rw [dif_pos hc]
        constructor
        · intro hx
          rcases List.mem_append.mp hx with hx | hx
          · obtain ⟨hxv, hne, hpd⟩ := (h5 x).mp hx
            exact ⟨Finset.mem_insert_of_mem hxv, hne, hpd⟩
          · rcases List.mem_singleton.mp hx with rfl
            exact ⟨Finset.mem_insert_self _ _, hc.1, hc.2⟩
        · rintro ⟨hxv, hne, hpd⟩
          rcases Finset.mem_insert.mp hxv with rfl | hxv
          · exact List.mem_append_right _ (List.mem_singleton.mpr rfl)
          · exact List.mem_append_left _ ((h5 x).mpr ⟨hxv, hne, hpd⟩)
      · rw [dif_neg hc]
        constructor
        · intro hx
          obtain ⟨hxv, hne, hpd⟩ := (h5 x).mp hx
          exact ⟨Finset.mem_insert_of_mem hxv, hne, hpd⟩
        · rintro ⟨hxv, hne, hpd⟩
          rcases Finset.mem_insert.mp hxv with rfl | hxv
          · exact absurd ⟨hne, hpd⟩ hc
          · exact (h5 x).mpr ⟨hxv, hne, hpd⟩
    · by_cases hc : current ≠ source ∧ td current = pid
      · rw [dif_pos hc]
        have hcur : current ∉ connected := by
          intro hx
          exact hvis ((h5 current).mp hx).1
        exact List.nodup_append.mpr
          ⟨h6, List.nodup_singleton _,
            fun x hx hx1 => hcur (List.mem_singleton.mp hx1 ▸ hx)⟩
      · rw [dif_neg hc]
        exact h6
  | case4 current stack visited connected hvis hmem =>
    intro h1 _ _ _ _ _
    exfalso
    rcases h1 current (List.mem_cons_self _ _) with rfl | ⟨-, hr⟩
    · exact hmem hsrc
    · exact hmem (reaches_mem_names hsrc hr)

/-- C8: for any ownership assignment (cycles included), any player and any
known source region, `find_connected_territories` terminates without a
`KeyError`, returning a duplicate-free list that contains exactly the
territories other than the source that are owned by the player and reachable
from the source through player-owned territories. -/
theorem c8_connected_territories (td : String → ℤ) (pid : ℤ) (source : String)
    (hsrc : source ∈ territoryNames) :
    ∃ l, find_connected_territories pid source td = .ok l ∧ l.Nodup ∧
      ∀ x, x ∈ l ↔ (x ≠ source ∧ td x = pid ∧ ReachesOwned td pid source x) := by
  apply fct_loop_spec td pid source hsrc [source] ∅ []
  · intro x hx
    rcases List.mem_cons.mp hx with rfl | hx
    · exact Or.inl rfl
    · exact absurd hx (List.not_mem_nil _)
  · intro x hx
    exact absurd hx (Finset.not_mem_empty _)
  · exact Or.inr (List.mem_cons_self _ _)
  · intro y hy
    exact absurd hy (Finset.not_mem_empty _)
  · intro x
    simp
  · exact List.nodup_nil

/-- C8 witness: a cyclic all-owned board (every territory owned by player 1),
source Alaska; the traversal terminates with the stated membership law. -/
theorem c8_witness :
    ∃ l, find_connected_territories 1 "Alaska" (fun _ => 1) = .ok l ∧ l.Nodup ∧
      ∀ x, x ∈ l ↔ (x ≠ "Alaska" ∧ (fun _ => (1 : ℤ)) x = 1 ∧
        ReachesOwned (fun _ => 1) 1 "Alaska" x) :=
  c8_connected_territories (fun _ => 1) 1 "Alaska" (by decide)
